import Mathlib

/-!
Verification of the Fibonacci STARK starter (`src/main.rs`) against its
specification. The prime field, trace builder, public-input extraction and
the AIR constraint assembly are embedded shallowly below; theorems follow.
-/

/-- The prime field `F_p` with `p = 18446744069414584321` (the field
`gpu_poly::fields::p18446744069414584321::Fp` used by `main.rs`). -/
abbrev Fp : Type := ZMod 18446744069414584321

/-- Rust's `usize::is_power_of_two` (`count_ones() == 1`), via the standard
bit identity: `n` is a power of two iff `n ≠ 0` and `n &&& (n-1) == 0`. -/
def is_power_of_two (n : Nat) : Bool :=
  n != 0 && (n &&& (n - 1)) == 0

/-- The mathematical Fibonacci sequence in `F_p` with `a 0 = a 1 = 1`,
used as the reference point for the trace builder's output. -/
def fibF : Nat → Fp
  | 0 => 1
  | 1 => 1
  | n + 2 => fibF (n + 1) + fibF n

/-- The loop `for i in 2..n { column.push(column[i-1] + column[i-2]) }` of
`build_fib_matrix`, with an explicit fuel argument so the recursion is
structural (fuel `n - 2` suffices; the caller passes `n`). -/
def fibLoop : Nat → Nat → Nat → List Fp → List Fp
  | 0, _, _, col => col
  | fuel + 1, n, i, col =>
    if i < n then fibLoop fuel n (i + 1) (col ++ [col.getD (i - 1) 0 + col.getD (i - 2) 0])
    else col

/-- `build_fib_matrix` from `main.rs`: asserts `n.is_power_of_two()` (modelled
as returning `none`, since the panic aborts without returning a matrix),
then builds the single column starting `[1, 1]` and extended by the loop. -/
def build_fib_matrix (n : Nat) : Option (List Fp) :=
  if is_power_of_two n then
    some (fibLoop n n 2 [1, 1])
  else
    none

/-- `FibTrace::last_fib_number`: `self.execution_trace.get_row(n - 1).unwrap()[0]`
where `n` is the number of rows. The `unwrap` of a missing row is modelled by
`Option`. The trace is its single column. -/
def last_fib_number (t : List Fp) : Option Fp :=
  t[t.length - 1]?

/-- `FibProver::get_pub_inputs`: returns `trace.last_fib_number()`. -/
def get_pub_inputs (t : List Fp) : Option Fp :=
  last_fib_number t

/-- Reading position `i` of `(List.range n).map f` with default gives `f i`. -/
lemma getD_range_map (f : Nat → Fp) {i n : Nat} (hi : i < n) :
    ((List.range n).map f).getD i 0 = f i := by
  rw [List.getD_eq_getElem _ _ (by simpa using hi)]
  simp

/-- The push loop, started at index `i` on the first `i` Fibonacci values,
produces the first `max i n` Fibonacci values (given enough fuel). -/
lemma fibLoop_range (fuel : Nat) : ∀ i : Nat, 2 ≤ i → n - i ≤ fuel →
    fibLoop fuel n i ((List.range i).map fibF) = (List.range (max i n)).map fibF := by
  induction fuel with
  | zero =>
    intro i h2 hf
    rw [fibLoop, Nat.max_eq_left (by omega)]
  | succ fuel ih =>
    intro i h2 hf
    rw [fibLoop]
    by_cases h : i < n
    · rw [if_pos h, getD_range_map fibF (show i - 1 < i by omega),
        getD_range_map fibF (show i - 2 < i by omega)]
      obtain ⟨j, rfl⟩ : ∃ j, i = j + 2 := ⟨i - 2, by omega⟩
      have hfib : fibF (j + 2 - 1) + fibF (j + 2 - 2) = fibF (j + 2) := by
        show fibF (j + 1) + fibF j = fibF (j + 2)
        rw [fibF]
      have hlist : (List.range (j + 2 + 1)).map fibF
          = (List.range (j + 2)).map fibF ++ [fibF (j + 2)] := by
        rw [List.range_succ, List.map_append, List.map_singleton]
      rw [hfib, ← hlist, ih (j + 2 + 1) (by omega) (by omega),
        Nat.max_eq_right (by omega), Nat.max_eq_right (by omega)]
    · rw [if_neg h, Nat.max_eq_left (by omega)]

/-- On any accepted input, `build_fib_matrix` returns exactly the first
`max 2 n` Fibonacci values. -/
lemma build_fib_matrix_eq {n : Nat} (h : is_power_of_two n = true) :
    build_fib_matrix n = some ((List.range (max 2 n)).map fibF) := by
  have h0 : ([1, 1] : List Fp) = (List.range 2).map fibF := by rfl
  rw [build_fib_matrix, if_pos h, h0, fibLoop_range n 2 (by omega) (by omega)]

/-- Modelled from the spec: an algebraic expression is "a tree over
{constant, indeterminate `X`, trace-cell reference `(column, row_offset)`,
addition, subtraction, multiplication, exponentiation}". The concrete type
`ministark::constraints::AlgebraicExpression` lives in the external engine
crate, not in this repository. -/
inductive AlgebraicExpression : Type
  | X : AlgebraicExpression
  | Constant : Fp → AlgebraicExpression
  | Trace : Nat → Int → AlgebraicExpression
  | add : AlgebraicExpression → AlgebraicExpression → AlgebraicExpression
  | sub : AlgebraicExpression → AlgebraicExpression → AlgebraicExpression
  | mul : AlgebraicExpression → AlgebraicExpression → AlgebraicExpression
  | pow : AlgebraicExpression → Nat → AlgebraicExpression
deriving DecidableEq

/-- Modelled from the spec: expressions are "evaluated over the domain during
proof construction"; `x` is the value of the indeterminate `X` and `tr`
resolves a trace-cell reference `(column, row_offset)`. The evaluator itself
lives in the external ministark engine. -/
def evalAt (x : Fp) (tr : Nat → Int → Fp) : AlgebraicExpression → Fp
  | .X => x
  | .Constant c => c
  | .Trace column row_offset => tr column row_offset
  | .add a b => evalAt x tr a + evalAt x tr b
  | .sub a b => evalAt x tr a - evalAt x tr b
  | .mul a b => evalAt x tr a * evalAt x tr b
  | .pow a e => (evalAt x tr a) ^ e

/-- Modelled from the spec: the evaluation domain is "the set
`{ω^0, ω^1, …, ω^{n-1}}` for a primitive nth root of unity `ω`" and
"provides random access to `ω^i`"; `trace_xs.element k` returns `ω^k`. The
domain implementation lives in the external ark-poly crate. -/
def domain_element (ω : Fp) (k : Nat) : Fp :=
  ω ^ k

/-- The expression `X.pow(n) - &one` built by `FibAir::constraints`
(`vanish_all_rows`). -/
def vanish_all_rows (n : Nat) : AlgebraicExpression :=
  .sub (.pow .X n) (.Constant 1)

/-- The expression `X - trace_xs.element(0)` built by `FibAir::constraints`
(`vanish_first_row`). -/
def vanish_first_row (ω : Fp) : AlgebraicExpression :=
  .sub .X (.Constant (domain_element ω 0))

/-- The expression `X - trace_xs.element(1)` built by `FibAir::constraints`
(`vanish_second_row`). -/
def vanish_second_row (ω : Fp) : AlgebraicExpression :=
  .sub .X (.Constant (domain_element ω 1))

/-- The expression `X - trace_xs.element(n - 1)` built by
`FibAir::constraints` (`vanish_last_row`). -/
def vanish_last_row (n : Nat) (ω : Fp) : AlgebraicExpression :=
  .sub .X (.Constant (domain_element ω (n - 1)))

/-- Outcome of a Rust function that may hit a panic (`todo!()` expands to
`panic!("not yet implemented")`). -/
inductive PanicOr (α : Type) : Type
  | panicked : String → PanicOr α
  | ok : α → PanicOr α
deriving DecidableEq

set_option linter.unusedVariables false in
/-- `FibAir::constraints` from `main.rs`, parametrised by the trace-domain
size `n`, its generator `ω` and the public input (`self.input`): it binds
the constant `1`, the claimed fibonacci number, the four vanishing
polynomials and the three trace-cell references exactly as the source does,
and then evaluates `vec![todo!()]`, which panics before any list is built. -/
def FibAir.constraints (n : Nat) (ω input : Fp) : PanicOr (List AlgebraicExpression) :=
  let one : AlgebraicExpression := .Constant 1
  let claimed_nth_fib_num : AlgebraicExpression := .Constant input
  let vAll : AlgebraicExpression := vanish_all_rows n
  let vFirst : AlgebraicExpression := vanish_first_row ω
  let vSecond : AlgebraicExpression := vanish_second_row ω
  let vLast : AlgebraicExpression := vanish_last_row n ω
  let curr_row : AlgebraicExpression := .Trace 0 0
  let before_row : AlgebraicExpression := .Trace 0 (-1)
  let two_before_row : AlgebraicExpression := .Trace 0 (-2)
  PanicOr.panicked "not yet implemented"

/-- Modelled from the spec: the transition constraint
"current-row value − (row[-1] + row[-2]) = 0" applies at rows `2..n-1`
(all rows other than `0`, `1` and `n-1`, per the vanishing-polynomial
factorisation of §4.3); the source leaves the body of
`FibAir::constraints` as a placeholder, so the applicability set is taken
from the spec. -/
def transition_identically_satisfied (n : Nat) (t : List Fp) : Prop :=
  ∀ i : Nat, 2 ≤ i → i + 1 < n → t.getD i 0 = t.getD (i - 1) 0 + t.getD (i - 2) 0

/-- Two distinct exponents below `n` give distinct powers of a primitive
nth root of unity. -/
lemma pow_ne_of_exp_lt {n : Nat} {ω : Fp} (hω : ω ^ n = 1)
    (hprim : ∀ j : Nat, 0 < j → j < n → ω ^ j ≠ 1) {a b : Nat}
    (hab : a < b) (hb : b < n) : ω ^ a ≠ ω ^ b := by
  intro heq
  have h1 : ω ^ (a + (n - b)) = 1 := by
    rw [pow_add, heq, ← pow_add, Nat.add_sub_cancel' (Nat.le_of_lt hb), hω]
  exact hprim (a + (n - b)) (by omega) (by omega) h1

/-- Powers of a primitive nth root of unity are injective below `n`. -/
lemma root_of_unity_pow_inj {n : Nat} {ω : Fp} (hω : ω ^ n = 1)
    (hprim : ∀ j : Nat, 0 < j → j < n → ω ^ j ≠ 1) {a b : Nat}
    (ha : a < n) (hb : b < n) : ω ^ a = ω ^ b ↔ a = b := by
  constructor
  · intro h
    rcases Nat.lt_trichotomy a b with h' | h' | h'
    · exact absurd h (pow_ne_of_exp_lt hω hprim h' hb)
    · exact h'
    · exact absurd h.symm (pow_ne_of_exp_lt hω hprim h' ha)
  · rintro rfl
    rfl

/-- C1: for every power of two `n` with `2 ≤ n ≤ 2^16`, `build_fib_matrix n`
returns a single-column trace of length `n` whose rows 0 and 1 equal the
field multiplicative identity 1, and whose every row `i` with `2 ≤ i < n`
equals the field sum of rows `i-1` and `i-2`. -/
theorem build_fib_matrix_fib_spec (n : Nat) (hpot : is_power_of_two n = true)
    (hlow : 2 ≤ n) (hhigh : n ≤ 2 ^ 16) :
    ∃ t : List Fp, build_fib_matrix n = some t ∧ t.length = n ∧
      t.getD 0 0 = 1 ∧ t.getD 1 0 = 1 ∧
      ∀ i : Nat, 2 ≤ i → i < n →
        t.getD i 0 = t.getD (i - 1) 0 + t.getD (i - 2) 0 := by
  refine ⟨(List.range n).map fibF, ?_, by simp,
    getD_range_map fibF (by omega), getD_range_map fibF (by omega), ?_⟩
  · rw [build_fib_matrix_eq hpot, Nat.max_eq_right hlow]
  · intro i h2 hlt
    rw [getD_range_map fibF hlt, getD_range_map fibF (show i - 1 < n by omega),
      getD_range_map fibF (show i - 2 < n by omega)]
    obtain ⟨j, rfl⟩ : ∃ j, i = j + 2 := ⟨i - 2, by omega⟩
    show fibF (j + 2) = fibF (j + 1) + fibF j
    rw [fibF]

/-- Witness for C1 at the concrete input `n = 4`. -/
theorem build_fib_matrix_fib_spec_witness :
    is_power_of_two 4 = true ∧ 2 ≤ 4 ∧ 4 ≤ 2 ^ 16 ∧
    (∃ t : List Fp, build_fib_matrix 4 = some t ∧ t.length = 4 ∧
      t.getD 0 0 = 1 ∧ t.getD 1 0 = 1 ∧
      ∀ i : Nat, 2 ≤ i → i < 4 →
        t.getD i 0 = t.getD (i - 1) 0 + t.getD (i - 2) 0) :=
  ⟨by decide, by decide, by decide,
    build_fib_matrix_fib_spec 4 (by decide) (by decide) (by decide)⟩

/-- C2: evaluating the constraint assembly at a concrete instance (trace
length 4, domain generator 7, public input 3) shows the code hits the
`todo!()` placeholder and panics instead of returning the documented
boundary and transition constraints. -/
theorem constraints_panic_n4 :
    FibAir.constraints 4 7 3 = PanicOr.panicked "not yet implemented" := rfl

/-- C3: for every completed (nonempty) trace, the public input extracted by
`FibProver::get_pub_inputs` is exactly the trace's last row, with no
validation performed on it. -/
theorem get_pub_inputs_eq_last (t : List Fp) (h : t ≠ []) :
    get_pub_inputs t = some (t.getLast h) := by
  have hl : t.length - 1 < t.length := by
    have := List.length_pos.mpr h
    omega
  rw [get_pub_inputs, last_fib_number, List.getLast_eq_getElem,
    List.getElem?_eq_getElem hl]

/-- Witness for C3 at the concrete trace `[1, 1, 2, 3]`. -/
theorem get_pub_inputs_eq_last_witness :
    ([(1 : Fp), 1, 2, 3] ≠ ([] : List Fp)) ∧
    get_pub_inputs [(1 : Fp), 1, 2, 3]
      = some (([(1 : Fp), 1, 2, 3]).getLast (by decide)) :=
  ⟨by decide, get_pub_inputs_eq_last [(1 : Fp), 1, 2, 3] (by decide)⟩

/-- C4 counterexample: `n = 1` is a power of two below 2, so the claim says
`build_fib_matrix 1` must fail; the code only asserts `is_power_of_two`,
so it succeeds and returns the two-row column `[1, 1]`. -/
theorem build_fib_matrix_one_returns :
    1 < 2 ∧ is_power_of_two 1 = true ∧ build_fib_matrix 1 = some [1, 1] :=
  ⟨by decide, by decide, by decide⟩

/-- C4 amended: the trace builder fails exactly when `n` is not a power of
two (`n = 0` included); for `n = 1` it does not fail. -/
theorem build_fib_matrix_none_iff (n : Nat) :
    build_fib_matrix n = none ↔ is_power_of_two n = false := by
  rw [build_fib_matrix]
  cases h : is_power_of_two n <;> simp

/-- C5: over the domain `{ω^0, …, ω^(n-1)}` generated by a primitive nth
root of unity, the expression `X^n - 1` built by `constraints()` evaluates
to zero at every domain point, and each expression `X - ω^k` built for
`k = 0, 1, n-1` evaluates to zero at `ω^i` if and only if `i = k`. -/
theorem vanishing_polynomials_spec (n : Nat) (ω : Fp) (tr : Nat → Int → Fp)
    (i : Nat) (hn : 2 ≤ n) (hω : ω ^ n = 1)
    (hprim : ∀ j : Nat, 0 < j → j < n → ω ^ j ≠ 1) (hi : i < n) :
    evalAt (ω ^ i) tr (vanish_all_rows n) = 0 ∧
    (evalAt (ω ^ i) tr (vanish_first_row ω) = 0 ↔ i = 0) ∧
    (evalAt (ω ^ i) tr (vanish_second_row ω) = 0 ↔ i = 1) ∧
    (evalAt (ω ^ i) tr (vanish_last_row n ω) = 0 ↔ i = n - 1) := by
  refine ⟨?_, ?_, ?_, ?_⟩
  · show (ω ^ i) ^ n - 1 = 0
    rw [← pow_mul, mul_comm, pow_mul, hω, one_pow, sub_self]
  · show ω ^ i - domain_element ω 0 = 0 ↔ i = 0
    rw [domain_element, sub_eq_zero]
    exact root_of_unity_pow_inj hω hprim hi (by omega)
  · show ω ^ i - domain_element ω 1 = 0 ↔ i = 1
    rw [domain_element, sub_eq_zero]
    exact root_of_unity_pow_inj hω hprim hi (by omega)
  · show ω ^ i - domain_element ω (n - 1) = 0 ↔ i = n - 1
    rw [domain_element, sub_eq_zero]
    exact root_of_unity_pow_inj hω hprim hi (by omega)

/-- Witness for C5 at `n = 2`, `ω = -1` (a primitive square root of unity
in `F_p`), domain point index `i = 1`. -/
theorem vanishing_polynomials_spec_witness :
    2 ≤ 2 ∧ (-1 : Fp) ^ 2 = 1 ∧ (1 : Nat) < 2 ∧
    (evalAt ((-1 : Fp) ^ 1) (fun _ _ => 0) (vanish_all_rows 2) = 0 ∧
      (evalAt ((-1 : Fp) ^ 1) (fun _ _ => 0) (vanish_first_row (-1)) = 0 ↔
        (1 : Nat) = 0) ∧
      (evalAt ((-1 : Fp) ^ 1) (fun _ _ => 0) (vanish_second_row (-1)) = 0 ↔
        (1 : Nat) = 1) ∧
      (evalAt ((-1 : Fp) ^ 1) (fun _ _ => 0) (vanish_last_row 2 (-1)) = 0 ↔
        (1 : Nat) = 2 - 1)) := by
  refine ⟨by omega, by decide, by omega,
    vanishing_polynomials_spec 2 (-1) (fun _ _ => 0) 1 (by omega) (by decide)
      ?_ (by omega)⟩
  intro j hj0 hj2
  obtain rfl : j = 1 := by omega
  rw [pow_one]
  decide

/-- C6: for `n = 4` the built trace is `[1, 1, 2, 3]` and the extracted
public input is 3. -/
theorem fib_trace_n4 :
    build_fib_matrix 4 = some [1, 1, 2, 3] ∧
    get_pub_inputs [(1 : Fp), 1, 2, 3] = some 3 :=
  ⟨by decide, by decide⟩

/-- C7: for `n = 2` the built trace is `[1, 1]` with public input 1; the
transition constraint's applicability range is empty and the transition
constraint is identically satisfied on this trace. -/
theorem fib_trace_n2 :
    build_fib_matrix 2 = some [1, 1] ∧
    get_pub_inputs [(1 : Fp), 1] = some 1 ∧
    (∀ i : Nat, ¬(2 ≤ i ∧ i + 1 < 2)) ∧
    transition_identically_satisfied 2 [1, 1] := by
  refine ⟨by decide, by decide, ?_, ?_⟩
  · intro i h
    omega
  · intro i h2 hlt
    omega

/-- C8: trace construction, public-input extraction and constraint assembly
are deterministic — two runs on identical inputs give identical results. -/
theorem deterministic_runs (n₁ n₂ m₁ m₂ : Nat) (t₁ t₂ : List Fp)
    (ω₁ ω₂ x₁ x₂ : Fp) (hn : n₁ = n₂) (ht : t₁ = t₂) (hm : m₁ = m₂)
    (hω : ω₁ = ω₂) (hx : x₁ = x₂) :
    build_fib_matrix n₁ = build_fib_matrix n₂ ∧
    last_fib_number t₁ = last_fib_number t₂ ∧
    FibAir.constraints m₁ ω₁ x₁ = FibAir.constraints m₂ ω₂ x₂ := by
  subst hn
  subst ht
  subst hm
  subst hω
  subst hx
  exact ⟨rfl, rfl, rfl⟩

/-- Witness for C8 at concrete identical inputs. -/
theorem deterministic_runs_witness :
    (4 : Nat) = 4 ∧
    (build_fib_matrix 4 = build_fib_matrix 4 ∧
      last_fib_number [(1 : Fp), 1] = last_fib_number [(1 : Fp), 1] ∧
      FibAir.constraints 4 7 3 = FibAir.constraints 4 7 3) :=
  ⟨rfl, deterministic_runs 4 4 4 4 [(1 : Fp), 1] [(1 : Fp), 1] 7 7 3 3
    rfl rfl rfl rfl rfl⟩

/-- C9: every matrix returned by `build_fib_matrix` has at least 2 rows, so
the last-row lookup of `FibTrace::last_fib_number` always succeeds. -/
theorem last_fib_number_succeeds (n : Nat) (t : List Fp)
    (h : build_fib_matrix n = some t) :
    2 ≤ t.length ∧ ∃ v : Fp, last_fib_number t = some v := by
  cases hp : is_power_of_two n with
  | false =>
    rw [build_fib_matrix, hp] at h
    simp at h
  | true =>
    rw [build_fib_matrix_eq hp] at h
    have ht : t = (List.range (max 2 n)).map fibF := (Option.some.inj h).symm
    subst ht
    have hlen : ((List.range (max 2 n)).map fibF).length = max 2 n := by simp
    constructor
    · rw [hlen]
      omega
    · have hlt : ((List.range (max 2 n)).map fibF).length - 1
          < ((List.range (max 2 n)).map fibF).length := by
        rw [hlen]
        omega
      exact ⟨_, List.getElem?_eq_getElem hlt⟩

/-- Witness for C9 at the concrete input `n = 2`. -/
theorem last_fib_number_succeeds_witness :
    build_fib_matrix 2 = some [(1 : Fp), 1] ∧
    (2 ≤ ([(1 : Fp), 1] : List Fp).length ∧
      ∃ v : Fp, last_fib_number [(1 : Fp), 1] = some v) :=
  ⟨by decide, last_fib_number_succeeds 2 [(1 : Fp), 1] (by decide)⟩

/-- C10: for every instance (any trace-domain size, generator and public
input), `FibAir::constraints` reaches the `todo!()` placeholder and panics
before returning any constraint list. -/
theorem constraints_always_panic (n : Nat) (ω input : Fp) :
    FibAir.constraints n ω input = PanicOr.panicked "not yet implemented" :=
  rfl
